import Mathlib

/-
Shallow embedding of the opencode discord bot message-relay core: the
chunking algorithm, response text extraction, the session registry with
its commands, the relay decision logic, the backend process supervisor,
and the administrative trigger.  Python strings are modelled as lists of
characters; the possibly diverging chunking loop is modelled with
explicit fuel and returns Option.
-/

namespace OpencodeBot

/-- Python strings are modelled as lists of characters. -/
abbrev PyStr := List Char

/-- Discord limits messages to 2000 characters (DISCORD_MAX_LEN in
discord_bot.py). -/
def DISCORD_MAX_LEN : Nat := 2000

/-- Embeds the call text.rfind of a newline over text[0:limit]: the
greatest index i below limit holding a newline character, none when
absent (Python returns -1 there). -/
def rfindNl (text : PyStr) (limit : Nat) : Option Nat :=
  (List.range limit).reverse.find? (fun i => text.get? i == some '\n')

/-- Embeds str.lstrip applied with the newline character: removes all
leading newline characters. -/
def lstripNl : PyStr → PyStr
  | [] => []
  | c :: rest => if c = '\n' then lstripNl rest else c :: rest

/-- The split position chosen by one iteration of the chunk_message loop:
the rfind result, replaced by limit when it is -1 or below limit / 2. -/
def split_at (text : PyStr) (limit : Nat) : Nat :=
  match rfindNl text limit with
  | none => limit
  | some i => if i < limit / 2 then limit else i

/-- The remaining text after one iteration of the chunking loop:
text[split_at:].lstrip of newlines. -/
def chunkRemainder (text : PyStr) (limit : Nat) : PyStr :=
  lstripNl (text.drop (split_at text limit))

/-- The while loop of chunk_message, with explicit fuel.  Each iteration
either finishes (empty remainder, or a remainder that fits in limit) or
emits text[:split_at] and continues on the stripped remainder. -/
def chunkLoop : Nat → PyStr → Nat → Option (List PyStr)
  | 0, _, _ => none
  | fuel + 1, text, limit =>
    if text = [] then some []
    else if text.length ≤ limit then some [text]
    else
      match chunkLoop fuel (chunkRemainder text limit) limit with
      | some rest => some (text.take (split_at text limit) :: rest)
      | none => none

/-- chunk_message from discord_bot.py: returns [text] when it fits,
otherwise runs the splitting loop.  Fuel length + 1 suffices whenever
limit is at least 1 (proved below); none models divergence. -/
def chunk_message (text : PyStr) (limit : Nat) : Option (List PyStr) :=
  if text.length ≤ limit then some [text]
  else chunkLoop (text.length + 1) text limit

/-- A response part as a loosely typed record: both keys may be absent,
mirroring part.get of the Python dict. -/
structure Part where
  type : Option PyStr
  text : Option PyStr
deriving DecidableEq

/-- A backend response: the parts list (response.get of parts, default
empty, is modelled by the list itself). -/
structure Response where
  parts : List Part
deriving DecidableEq

/-- The fixed placeholder produced when the joined text strips to empty. -/
def placeholder : PyStr := "(no text in response)".toList

/-- The loop of extract_text: collects part.get of text (default empty)
for every part whose type equals text, in order. -/
def collectTexts : List Part → List PyStr
  | [] => []
  | p :: rest =>
    if p.type = some "text".toList then (p.text.getD []) :: collectTexts rest
    else collectTexts rest

/-- Embeds str.strip with no arguments: removes leading and trailing
whitespace. -/
def pyStrip (s : PyStr) : PyStr :=
  ((s.dropWhile Char.isWhitespace).reverse.dropWhile Char.isWhitespace).reverse

/-- OpenCodeClient.extract_text: join the collected texts with newline,
strip, and fall back to the placeholder when the result is empty (the
Python or idiom on the falsy empty string). -/
def extract_text (response : Response) : PyStr :=
  if pyStrip (List.intercalate ['\n'] (collectTexts response.parts)) = []
  then placeholder
  else pyStrip (List.intercalate ['\n'] (collectTexts response.parts))

/-- The session registry: the dict from channel id to session id is
modelled as an association list where binding prepends the new pair. -/
abbrev Registry := List (Nat × String)

/-- Dictionary lookup in the registry. -/
def regLookup (reg : Registry) (ch : Nat) : Option String :=
  (reg.find? (fun p => p.1 == ch)).map (fun p => p.2)

/-- The state effect of cmd_start in discord_bot.py, given the allow
check result and the session id the backend would issue.  Returns the
new registry and whether create_session was called.  A denied channel or
an already bound channel leaves the registry unchanged and calls
nothing. -/
def cmd_start (reg : Registry) (ch : Nat) (allowed : Bool) (fresh : String) :
    Registry × Bool :=
  if !allowed then (reg, false)
  else
    match regLookup reg ch with
    | some _ => (reg, false)
    | none => ((ch, fresh) :: reg, true)

/-- The supervisor state of OpenCodeClient: an optional live process
(identified by pid) and whether an open HTTP connection pool exists. -/
structure SupervisorState where
  process : Option Nat
  httpOpen : Bool
deriving DecidableEq

/-- The observable outcome of start_server.  The error constructor is
never produced by the code; it exists to state the specified behaviour. -/
inductive StartOutcome where
  | spawned (pid : Nat)
  | noop
  | alreadyRunningError
deriving DecidableEq

/-- OpenCodeClient.start_server: when a process handle is already live it
logs a warning and returns; otherwise it spawns a subprocess.  The health
polling after the spawn is outside this model. -/
def start_server (st : SupervisorState) (newPid : Nat) :
    SupervisorState × StartOutcome :=
  match st.process with
  | some _ => (st, StartOutcome.noop)
  | none =>
    ({ process := some newPid, httpOpen := st.httpOpen },
     StartOutcome.spawned newPid)

/-- OpenCodeClient.stop_server: returns immediately when no process is
live; otherwise terminates the process (gracefully or by force, both
ending in the same state), clears the handle, and closes and clears the
HTTP pool. -/
def stop_server (st : SupervisorState) : SupervisorState :=
  match st.process with
  | none => st
  | some _ => { process := none, httpOpen := false }

/-- The user visible error message sent when the backend call raises. -/
def errChunk (e : PyStr) : PyStr := "⚠️ OpenCode error: ".toList ++ e

/-- The chunks sent to the channel by the relay once the backend call
returned: on an exception exactly the one error message, on success the
chunked extracted text. -/
def relay_deliver (outcome : Except PyStr Response) : List PyStr :=
  match outcome with
  | Except.error e => [errChunk e]
  | Except.ok resp =>
    (chunk_message (extract_text resp) DISCORD_MAX_LEN).getD []

/-- The decision taken by OpenCodeBot.on_message before any backend
call, following the guard order of the code: bot author, channel kind,
command prefix test on content, allow list, session lookup, and the
emptiness test on the stripped content. -/
inductive RelayAction where
  | ignoredBot
  | ignoredNotTextChannel
  | ignoredCommand
  | ignoredNotAllowed
  | ignoredNoSession
  | ignoredEmpty
  | relay (sessionId : String) (text : PyStr)
deriving DecidableEq

/-- OpenCodeBot.on_message guard chain.  None of its branches mutates
the registry. -/
def on_message (authorIsBot : Bool) (isTextChannel : Bool) (content : PyStr)
    (cmdPref : PyStr) (allowed : Bool) (reg : Registry) (ch : Nat) :
    RelayAction :=
  if authorIsBot then RelayAction.ignoredBot
  else if !isTextChannel then RelayAction.ignoredNotTextChannel
  else if cmdPref.isPrefixOf content then RelayAction.ignoredCommand
  else if !allowed then RelayAction.ignoredNotAllowed
  else
    match regLookup reg ch with
    | none => RelayAction.ignoredNoSession
    | some sid =>
      if pyStrip content = [] then RelayAction.ignoredEmpty
      else RelayAction.relay sid (pyStrip content)

/-- The send_message call on_message makes, if any: the bound session id
and the stripped user text. -/
def actionBackendCall : RelayAction → Option (String × PyStr)
  | RelayAction.relay sid t => some (sid, t)
  | _ => none

/-- The channel sends produced by on_message: nothing unless the message
is relayed, in which case relay_deliver applies to the backend outcome. -/
def actionSends (a : RelayAction) (outcome : Except PyStr Response) :
    List PyStr :=
  match a with
  | RelayAction.relay _ _ => relay_deliver outcome
  | _ => []

/-- The dict returned by OpenCodeBot.create_session_channel. -/
structure TriggerResult where
  channel_id : Nat
  channel_name : String
  session_id : String
  error : Option PyStr
deriving DecidableEq

/-- OpenCodeBot.create_session_channel after channel and session
creation succeeded with the given identifiers: binds the channel, then
sends the prompt.  On a send exception it sends an error message and
returns the identifiers plus the error field; on success it sends the
chunked reply and returns the identifiers without an error field.  In
both cases the binding stays.  The triple is the new registry, the
returned dict, and the channel sends. -/
def create_session_channel (reg : Registry) (chId : Nat) (chName : String)
    (sid : String) (sendOutcome : Except PyStr Response) :
    Registry × TriggerResult × List PyStr :=
  let reg1 : Registry := (chId, sid) :: reg
  match sendOutcome with
  | Except.error e =>
    (reg1,
     { channel_id := chId, channel_name := chName, session_id := sid,
       error := some e },
     [errChunk e])
  | Except.ok resp =>
    (reg1,
     { channel_id := chId, channel_name := chName, session_id := sid,
       error := none },
     (chunk_message (extract_text resp) DISCORD_MAX_LEN).getD [])

/-- Stripping leading newlines never lengthens a string. -/
lemma lstripNl_length_le (l : PyStr) : (lstripNl l).length ≤ l.length := by
  induction l with
  | nil => simp [lstripNl]
  | cons c rest ih =>
    simp only [lstripNl]
    split
    · exact le_trans ih (Nat.le_succ _)
    · exact le_refl _

/-- Stripping leading newlines removes a leading newline. -/
lemma lstripNl_cons_nl (l : PyStr) : lstripNl ('\n' :: l) = lstripNl l := by
  simp [lstripNl]

/-- A successful rfind yields an index below the bound that holds a
newline character. -/
lemma rfindNl_spec {text : PyStr} {limit i : Nat}
    (h : rfindNl text limit = some i) :
    i < limit ∧ text.get? i = some '\n' := by
  unfold rfindNl at h
  have hmem := List.mem_of_find?_eq_some h
  have hp := List.find?_some h
  refine ⟨?_, ?_⟩
  · have := List.mem_reverse.mp hmem
    simpa using List.mem_range.mp this
  · simpa using hp

/-- Equation for split_at when no newline is found. -/
lemma split_at_eq_of_none {text : PyStr} {limit : Nat}
    (h : rfindNl text limit = none) : split_at text limit = limit := by
  unfold split_at
  rw [h]

/-- Equation for split_at when a newline is found. -/
lemma split_at_eq_of_some {text : PyStr} {limit i : Nat}
    (h : rfindNl text limit = some i) :
    split_at text limit = if i < limit / 2 then limit else i := by
  unfold split_at
  rw [h]

/-- The chosen split position never exceeds the limit. -/
lemma split_at_le (text : PyStr) (limit : Nat) : split_at text limit ≤ limit := by
  cases h : rfindNl text limit with
  | none => rw [split_at_eq_of_none h]
  | some i =>
    rw [split_at_eq_of_some h]
    split
    · exact le_refl _
    · exact le_of_lt (rfindNl_spec h).1

/-- Each loop iteration consumes strictly more than half the limit:
twice the remainder length plus limit + 1 stays within twice the
original length. -/
lemma chunkRemainder_consume {text : PyStr} {limit : Nat}
    (h1 : 1 ≤ limit) (h2 : limit < text.length) :
    2 * (chunkRemainder text limit).length + (limit + 1) ≤ 2 * text.length := by
  unfold chunkRemainder
  cases h : rfindNl text limit with
  | none =>
    rw [split_at_eq_of_none h]
    have hle := lstripNl_length_le (text.drop limit)
    have hd : (text.drop limit).length = text.length - limit := by simp
    omega
  | some i =>
    obtain ⟨hilt, hget⟩ := rfindNl_spec h
    rw [split_at_eq_of_some h]
    by_cases hhalf : i < limit / 2
    · rw [if_pos hhalf]
      have hle := lstripNl_length_le (text.drop limit)
      have hd : (text.drop limit).length = text.length - limit := by simp
      omega
    · rw [if_neg hhalf]
      have hi_len : i < text.length := lt_trans hilt h2
      have hgi : text[i] = '\n' := by
        obtain ⟨hh, hv⟩ := List.get?_eq_some.mp hget
        simpa [List.get_eq_getElem] using hv
      rw [List.drop_eq_getElem_cons hi_len, hgi, lstripNl_cons_nl]
      have hle := lstripNl_length_le (text.drop (i + 1))
      have hd : (text.drop (i + 1)).length = text.length - (i + 1) := by simp
      have hhalf2 : limit / 2 ≤ i := Nat.le_of_not_lt hhalf
      omega

/-- Each loop iteration strictly reduces the remaining length. -/
lemma chunkRemainder_lt {text : PyStr} {limit : Nat}
    (h1 : 1 ≤ limit) (h2 : limit < text.length) :
    (chunkRemainder text limit).length < text.length := by
  have := chunkRemainder_consume h1 h2
  omega

/-- With a positive limit, fuel above the text length suffices for the
chunking loop. -/
lemma chunkLoop_isSome {limit : Nat} (h1 : 1 ≤ limit) :
    ∀ (fuel : Nat) (text : PyStr), text.length < fuel →
      (chunkLoop fuel text limit).isSome := by
  intro fuel
  induction fuel with
  | zero => intro text hf; omega
  | succ f ih =>
    intro text hf
    by_cases he : text = []
    · simp [chunkLoop, he]
    by_cases hle : text.length ≤ limit
    · simp [chunkLoop, he, hle]
    · have hlt := chunkRemainder_lt h1 (Nat.lt_of_not_le hle)
      have hs := ih (chunkRemainder text limit) (by omega)
      simp only [chunkLoop, if_neg he, if_neg hle]
      cases hr : chunkLoop f (chunkRemainder text limit) limit with
      | none => rw [hr] at hs; simp at hs
      | some rest => simp

/-- Every chunk emitted by the loop fits within the limit. -/
lemma chunkLoop_chunk_le {limit : Nat} :
    ∀ (fuel : Nat) (text : PyStr) (cs : List PyStr),
      chunkLoop fuel text limit = some cs → ∀ c ∈ cs, c.length ≤ limit := by
  intro fuel
  induction fuel with
  | zero => intro text cs h; simp [chunkLoop] at h
  | succ f ih =>
    intro text cs h c hc
    by_cases he : text = []
    · simp [chunkLoop, he] at h
      subst h; simp at hc
    by_cases hle : text.length ≤ limit
    · simp [chunkLoop, he, hle] at h
      subst h
      simp at hc
      subst hc; exact hle
    · simp only [chunkLoop, if_neg he, if_neg hle] at h
      cases hr : chunkLoop f (chunkRemainder text limit) limit with
      | none => rw [hr] at h; simp at h
      | some rest =>
        rw [hr] at h
        simp at h
        subst h
        rcases List.mem_cons.mp hc with hc1 | hc2
        · subst hc1
          calc (text.take (split_at text limit)).length
              ≤ split_at text limit := by simp
            _ ≤ limit := split_at_le text limit
        · exact ih (chunkRemainder text limit) rest hr c hc2

/-- Counting invariant of the loop: limit + 1 times the number of chunks
stays within twice the text length plus limit + 1. -/
lemma chunkLoop_count {limit : Nat} (h1 : 1 ≤ limit) :
    ∀ (fuel : Nat) (text : PyStr) (cs : List PyStr),
      chunkLoop fuel text limit = some cs →
      (limit + 1) * cs.length ≤ 2 * text.length + (limit + 1) := by
  intro fuel
  induction fuel with
  | zero => intro text cs h; simp [chunkLoop] at h
  | succ f ih =>
    intro text cs h
    by_cases he : text = []
    · simp [chunkLoop, he] at h
      subst h; simp
    by_cases hle : text.length ≤ limit
    · simp [chunkLoop, he, hle] at h
      subst h; simp
    · simp only [chunkLoop, if_neg he, if_neg hle] at h
      cases hr : chunkLoop f (chunkRemainder text limit) limit with
      | none => rw [hr] at h; simp at h
      | some rest =>
        rw [hr] at h
        simp at h
        subst h
        have hcons := chunkRemainder_consume h1 (Nat.lt_of_not_le hle)
        have hih := ih (chunkRemainder text limit) rest hr
        have hexp : (limit + 1) * (rest.length + 1)
            = (limit + 1) * rest.length + (limit + 1) := by ring
        simp only [List.length_cons, hexp]
        omega

/-- The loop never returns an empty chunk list on nonempty input. -/
lemma chunkLoop_ne_nil {limit fuel : Nat} {text : PyStr} {cs : List PyStr}
    (hne : text ≠ []) (h : chunkLoop fuel text limit = some cs) : cs ≠ [] := by
  cases fuel with
  | zero => simp [chunkLoop] at h
  | succ f =>
    by_cases hle : text.length ≤ limit
    · simp [chunkLoop, hne, hle] at h
      subst h; simp
    · simp only [chunkLoop, if_neg hne, if_neg hle] at h
      cases hr : chunkLoop f (chunkRemainder text limit) limit with
      | none => rw [hr] at h; simp at h
      | some rest =>
        rw [hr] at h
        simp at h
        subst h; simp

/-- The collecting loop of extract_text equals filtering the parts
tagged as text and taking their text fields, in order. -/
lemma collectTexts_eq (ps : List Part) :
    collectTexts ps
      = (ps.filter (fun p => p.type == some "text".toList)).map
          (fun p => p.text.getD []) := by
  induction ps with
  | nil => rfl
  | cons p rest ih =>
    simp only [collectTexts, List.filter_cons, beq_iff_eq,
      apply_ite (List.map (fun p : Part => p.text.getD []))]
    by_cases h : p.type = some "text".toList
    · rw [if_pos h, if_pos h, List.map_cons, ih]
    · rw [if_neg h, if_neg h, ih]

/-- extract_text never yields the empty string. -/
lemma extract_text_ne_nil (resp : Response) : extract_text resp ≠ [] := by
  unfold extract_text
  split
  · decide
  · assumption

/-- C9: for every input text whose length is at most the limit
(including the empty string), chunk_message returns exactly one chunk,
and that chunk equals the input text. -/
theorem chunk_message_short (text : PyStr) (limit : Nat)
    (h : text.length ≤ limit) :
    chunk_message text limit = some [text] := by
  unfold chunk_message
  rw [if_pos h]

/-- Witness for chunk_message_short at a concrete input. -/
theorem chunk_message_short_witness :
    ("ab".toList : PyStr).length ≤ 2000
    ∧ chunk_message "ab".toList 2000 = some ["ab".toList] :=
  ⟨by decide, chunk_message_short "ab".toList 2000 (by decide)⟩

/-- C7: for every input text and any positive limit (in particular the
fixed platform limit 2000), the chunking loop terminates: the fuelled
loop returns a value, and each iteration strictly reduces the remaining
text length by at least one character. -/
theorem chunk_message_terminates (text : PyStr) (limit : Nat) (h : 1 ≤ limit) :
    (chunk_message text limit).isSome = true
    ∧ (limit < text.length →
        (chunkRemainder text limit).length < text.length) := by
  constructor
  · unfold chunk_message
    by_cases hle : text.length ≤ limit
    · simp [hle]
    · rw [if_neg hle]
      exact chunkLoop_isSome h (text.length + 1) text (by omega)
  · intro h2
    exact chunkRemainder_lt h h2

/-- Witness for chunk_message_terminates at a concrete input longer than
the limit. -/
theorem chunk_message_terminates_witness :
    1 ≤ 3
    ∧ ((chunk_message "ab\ncdef".toList 3).isSome = true
      ∧ (3 < ("ab\ncdef".toList : PyStr).length →
          (chunkRemainder "ab\ncdef".toList 3).length
            < ("ab\ncdef".toList : PyStr).length)) :=
  ⟨by decide, chunk_message_terminates "ab\ncdef".toList 3 (by decide)⟩

/-- C1: for every input text whose length exceeds the positive limit,
chunk_message returns a finite chunk list in which every chunk has
length at most the limit, and the number of chunks is at most the
ceiling of the length divided by half the limit, which equals
(2 len + limit - 1) / limit in natural division. -/
theorem chunk_message_long (text : PyStr) (limit : Nat)
    (h1 : 1 ≤ limit) (h2 : limit < text.length) :
    ∃ cs, chunk_message text limit = some cs
      ∧ (∀ c ∈ cs, c.length ≤ limit)
      ∧ cs.length ≤ (2 * text.length + limit - 1) / limit := by
  have hle : ¬ text.length ≤ limit := by omega
  have hs := chunkLoop_isSome h1 (text.length + 1) text (by omega)
  obtain ⟨cs, hcs⟩ := Option.isSome_iff_exists.mp hs
  refine ⟨cs, ?_, ?_, ?_⟩
  · unfold chunk_message
    rw [if_neg hle]
    exact hcs
  · exact chunkLoop_chunk_le _ text cs hcs
  · have hcount := chunkLoop_count h1 _ text cs hcs
    rw [Nat.le_div_iff_mul_le (by omega : 0 < limit)]
    match hk : cs.length with
    | 0 => simp
    | 1 => simp; omega
    | k + 2 =>
      rw [hk] at hcount
      have hexp : (limit + 1) * (k + 2) = limit * (k + 2) + (k + 2) := by ring
      rw [hexp] at hcount
      have hgoal : (k + 2) * limit = limit * (k + 2) := by ring
      rw [hgoal]
      omega

/-- Witness for chunk_message_long at a concrete input. -/
theorem chunk_message_long_witness :
    1 ≤ 3 ∧ 3 < ("abcdefgh".toList : PyStr).length
    ∧ ∃ cs, chunk_message "abcdefgh".toList 3 = some cs
      ∧ (∀ c ∈ cs, c.length ≤ 3)
      ∧ cs.length ≤ (2 * ("abcdefgh".toList : PyStr).length + 3 - 1) / 3 :=
  ⟨by decide, by decide,
   chunk_message_long "abcdefgh".toList 3 (by decide) (by decide)⟩

/-- C2 counterexample: a response holding one part tagged as text whose
text field is absent does contain a text segment, yet extract_text
returns the placeholder, refuting that the placeholder appears exactly
when no text segments exist. -/
theorem extract_text_claim_false :
    extract_text ⟨[⟨some "text".toList, none⟩]⟩ = placeholder
    ∧ (Response.mk [⟨some "text".toList, none⟩]).parts.any
        (fun p => p.type == some "text".toList) = true :=
  ⟨by decide, by decide⟩

/-- C2 amended: extract_text yields the newline join of the text fields
of the parts tagged as text, in original order, stripped; it yields the
placeholder exactly when that stripped join is empty, which covers the
case of no text segments but also text segments that are all empty or
whitespace.  The two spec examples hold. -/
theorem extract_text_amended (resp : Response) :
    (extract_text resp =
      if pyStrip (List.intercalate ['\n']
          ((resp.parts.filter (fun p => p.type == some "text".toList)).map
            (fun p => p.text.getD []))) = []
      then placeholder
      else pyStrip (List.intercalate ['\n']
          ((resp.parts.filter (fun p => p.type == some "text".toList)).map
            (fun p => p.text.getD []))))
    ∧ extract_text ⟨[⟨some "text".toList, some "a".toList⟩,
        ⟨some "tool".toList, none⟩,
        ⟨some "text".toList, some "b".toList⟩]⟩ = "a\nb".toList
    ∧ extract_text ⟨[]⟩ = placeholder := by
  refine ⟨?_, by decide, by decide⟩
  simp only [extract_text, ← collectTexts_eq]

/-- C3: for a relayed message, a backend failure produces exactly the
one error chunk and nothing else, so no response chunk precedes it,
while a backend success delivers at least one chunk, the placeholder
counting as content. -/
theorem relay_no_partial (e : PyStr) (resp : Response) (sid : String)
    (t : PyStr) :
    actionSends (RelayAction.relay sid t) (Except.error e) = [errChunk e]
    ∧ 1 ≤ (actionSends (RelayAction.relay sid t) (Except.ok resp)).length := by
  constructor
  · rfl
  · show 1 ≤ ((chunk_message (extract_text resp) DISCORD_MAX_LEN).getD []).length
    have hne := extract_text_ne_nil resp
    by_cases hle : (extract_text resp).length ≤ DISCORD_MAX_LEN
    · unfold chunk_message
      rw [if_pos hle]
      simp
    · have hs := chunkLoop_isSome (by decide : (1 : Nat) ≤ DISCORD_MAX_LEN)
        ((extract_text resp).length + 1) (extract_text resp) (by omega)
      obtain ⟨cs, hcs⟩ := Option.isSome_iff_exists.mp hs
      have hnn := chunkLoop_ne_nil hne hcs
      unfold chunk_message
      rw [if_neg hle, hcs]
      cases cs with
      | nil => exact absurd rfl hnn
      | cons c rest => simp

/-- C4: invoking start on a channel that already has a binding leaves
the registry unchanged, calls no session creation, and the channel stays
bound to the first session id. -/
theorem cmd_start_already_bound (reg : Registry) (ch : Nat) (sid fresh : String)
    (h : regLookup reg ch = some sid) :
    (cmd_start reg ch true fresh).1 = reg
    ∧ (cmd_start reg ch true fresh).2 = false
    ∧ regLookup (cmd_start reg ch true fresh).1 ch = some sid := by
  simp only [cmd_start, Bool.not_true, Bool.false_eq_true, if_false, h]
  exact ⟨trivial, trivial, trivial⟩

/-- Witness for cmd_start_already_bound at a concrete registry. -/
theorem cmd_start_already_bound_witness :
    regLookup [(1, "s1")] 1 = some "s1"
    ∧ ((cmd_start [(1, "s1")] 1 true "s2").1 = [(1, "s1")]
      ∧ (cmd_start [(1, "s1")] 1 true "s2").2 = false
      ∧ regLookup (cmd_start [(1, "s1")] 1 true "s2").1 1 = some "s1") :=
  ⟨by decide, cmd_start_already_bound [(1, "s1")] 1 "s1" "s2" (by decide)⟩

/-- C5 counterexample: with a live process handle, start_server returns
the unchanged state with a silent noop outcome, not the AlreadyRunning
error the spec requires. -/
theorem start_server_claim_false :
    start_server ⟨some 7, true⟩ 9 = (⟨some 7, true⟩, StartOutcome.noop)
    ∧ StartOutcome.noop ≠ StartOutcome.alreadyRunningError :=
  ⟨rfl, by decide⟩

/-- C5 amended: when a process handle is already live, start_server logs
a warning and silently does nothing: the state is unchanged, no second
process is spawned, and no error is raised. -/
theorem start_server_noop_when_live (st : SupervisorState) (p newPid : Nat)
    (h : st.process = some p) :
    start_server st newPid = (st, StartOutcome.noop) := by
  unfold start_server
  rw [h]

/-- Witness for start_server_noop_when_live at a concrete state. -/
theorem start_server_noop_when_live_witness :
    (⟨some 7, true⟩ : SupervisorState).process = some 7
    ∧ start_server ⟨some 7, true⟩ 9 = (⟨some 7, true⟩, StartOutcome.noop) :=
  ⟨rfl, start_server_noop_when_live ⟨some 7, true⟩ 7 9 rfl⟩

/-- C6 counterexample: calling stop_server in the state with no live
process but an open HTTP pool leaves the pool open, refuting that every
call releases the pool. -/
theorem stop_server_claim_false :
    (stop_server ⟨none, true⟩).httpOpen = true := by decide

/-- C6 amended: after stop_server from any state with a live process
handle, the HTTP pool has been released and the handle cleared; when no
process is live, stop_server returns without touching the pool. -/
theorem stop_server_releases (st : SupervisorState) (p : Nat)
    (h : st.process = some p) :
    (stop_server st).httpOpen = false ∧ (stop_server st).process = none := by
  unfold stop_server
  rw [h]
  exact ⟨rfl, rfl⟩

/-- Witness for stop_server_releases at a concrete state. -/
theorem stop_server_releases_witness :
    (⟨some 7, true⟩ : SupervisorState).process = some 7
    ∧ ((stop_server ⟨some 7, true⟩).httpOpen = false
      ∧ (stop_server ⟨some 7, true⟩).process = none) :=
  ⟨rfl, stop_server_releases ⟨some 7, true⟩ 7 rfl⟩

/-- C8: when channel and session creation succeeded and the initial send
fails, the trigger still returns the created channel id, channel name
and session id together with the error field, and the binding stays in
the registry: nothing is rolled back. -/
theorem create_session_channel_send_failure (reg : Registry) (chId : Nat)
    (chName : String) (sid : String) (e : PyStr) :
    (create_session_channel reg chId chName sid (Except.error e)).2.1.channel_id = chId
    ∧ (create_session_channel reg chId chName sid (Except.error e)).2.1.channel_name = chName
    ∧ (create_session_channel reg chId chName sid (Except.error e)).2.1.session_id = sid
    ∧ (create_session_channel reg chId chName sid (Except.error e)).2.1.error = some e
    ∧ regLookup (create_session_channel reg chId chName sid (Except.error e)).1 chId
        = some sid := by
  refine ⟨rfl, rfl, rfl, rfl, ?_⟩
  show regLookup ((chId, sid) :: reg) chId = some sid
  simp [regLookup]

/-- C10: an inbound non command message in an allowed channel with an
active binding whose content strips to empty is ignored: the decision is
ignoredEmpty, no backend call is made, and no chunk or error is sent.
No branch of on_message mutates the registry. -/
theorem on_message_whitespace_ignored (content cmdPref : PyStr)
    (reg : Registry) (ch : Nat) (sid : String)
    (hc : cmdPref.isPrefixOf content = false)
    (hs : regLookup reg ch = some sid)
    (hw : pyStrip content = []) :
    on_message false true content cmdPref true reg ch = RelayAction.ignoredEmpty
    ∧ actionBackendCall
        (on_message false true content cmdPref true reg ch) = none
    ∧ ∀ outcome, actionSends
        (on_message false true content cmdPref true reg ch) outcome = [] := by
  have hm : on_message false true content cmdPref true reg ch
      = RelayAction.ignoredEmpty := by
    simp [on_message, hc, hs, hw]
  refine ⟨hm, ?_, ?_⟩
  · rw [hm]
    rfl
  · intro outcome
    rw [hm]
    rfl

/-- Witness for on_message_whitespace_ignored at a concrete whitespace
message. -/
theorem on_message_whitespace_ignored_witness :
    ("!".toList : PyStr).isPrefixOf "  \n ".toList = false
    ∧ regLookup [(5, "s")] 5 = some "s"
    ∧ pyStrip "  \n ".toList = []
    ∧ (on_message false true "  \n ".toList "!".toList true [(5, "s")] 5
        = RelayAction.ignoredEmpty
      ∧ actionBackendCall
          (on_message false true "  \n ".toList "!".toList true [(5, "s")] 5)
          = none
      ∧ ∀ outcome, actionSends
          (on_message false true "  \n ".toList "!".toList true [(5, "s")] 5)
          outcome = []) :=
  ⟨by decide, by decide, by decide,
   on_message_whitespace_ignored "  \n ".toList "!".toList [(5, "s")] 5 "s"
     (by decide) (by decide) (by decide)⟩

end OpencodeBot
